import Mathlib

/-
Verification of the tolerant CSV parser and value formatters of the
member-lookup application (src/index.tsx). The TypeScript source is shallowly
embedded below: each JavaScript string operation is modelled over List Char,
machine numbers used as array indices are modelled as Int (JS findIndex
returns -1), and every function is total and executable.
-/

namespace LookupVibe

/-- Whitespace removed by JavaScript String.trim: the ECMA-262 WhiteSpace set
(TAB, VT, FF, SP, NBSP, ZWNBSP and the Unicode space separators U+1680,
U+2000..U+200A, U+202F, U+205F, U+3000) together with the line terminators
LF, CR, LS and PS. -/
def jsWhitespace (c : Char) : Bool :=
  decide (c.toNat = 0x09) || decide (c.toNat = 0x0A) || decide (c.toNat = 0x0B) ||
  decide (c.toNat = 0x0C) || decide (c.toNat = 0x0D) || decide (c.toNat = 0x20) ||
  decide (c.toNat = 0xA0) || decide (c.toNat = 0x1680) ||
  (decide (0x2000 ≤ c.toNat) && decide (c.toNat ≤ 0x200A)) ||
  decide (c.toNat = 0x2028) || decide (c.toNat = 0x2029) ||
  decide (c.toNat = 0x202F) || decide (c.toNat = 0x205F) ||
  decide (c.toNat = 0x3000) || decide (c.toNat = 0xFEFF)

/-- Characters removed from both ends by trim. -/
def trimChars (cs : List Char) : List Char :=
  ((cs.dropWhile jsWhitespace).reverse.dropWhile jsWhitespace).reverse

/-- JavaScript String.trim modelled over the character list. -/
def strTrim (s : String) : String :=
  String.mk (trimChars s.data)

/-- Character class test for the regex [a-z0-9] used by the normalizers. -/
def isAlnumLower (c : Char) : Bool :=
  (decide (97 ≤ c.toNat) && decide (c.toNat ≤ 122)) ||
  (decide (48 ≤ c.toNat) && decide (c.toNat ≤ 57))

/-- Test whether the first list is an initial segment of the second. -/
def leadsWith : List Char → List Char → Bool
  | [], _ => true
  | _ :: _, [] => false
  | a :: as, b :: bs => a == b && leadsWith as bs

/-- Test whether needle occurs contiguously inside hay, in the sense of the
JavaScript String.includes used on normalized (ASCII) cells. -/
def containsSub (needle : List Char) : List Char → Bool
  | [] => leadsWith needle []
  | c :: rest => leadsWith needle (c :: rest) || containsSub needle rest

/-- JavaScript cell.includes(kw) on strings. -/
def strContains (hay needle : String) : Bool :=
  containsSub needle.data hay.data

/-- Normalization of a header/data cell: c.toLowerCase().replace(/[^a-z0-9]/g, ''). -/
def normCell (s : String) : String :=
  String.mk ((s.data.map Char.toLower).filter isAlnumLower)

/-- Normalization of a keyword: k.replace(/[^a-z0-9]/g, '') (keywords are
already lowercase in the source). -/
def normKw (k : String) : String :=
  String.mk (k.data.filter isAlnumLower)

/-- Strip one leading byte-order mark: text.replace(/^﻿/, ''). -/
def stripBOM (text : String) : String :=
  match text.data with
  | '﻿' :: rest => String.mk rest
  | _ => text

/-- Split on the regex /\r?\n/: every newline is a break point and a carriage
return immediately before a newline is consumed with it. -/
def jsLineSplit : List Char → List Char → List String
  | [], cur => [String.mk cur.reverse]
  | '\r' :: '\n' :: rest, cur => String.mk cur.reverse :: jsLineSplit rest []
  | '\n' :: rest, cur => String.mk cur.reverse :: jsLineSplit rest []
  | c :: rest, cur => jsLineSplit rest (c :: cur)

/-- Lines of the cleaned text that are non-empty after trimming:
cleanText.split(/\r?\n/).filter(line => line.trim().length > 0). -/
def nonEmptyLines (text : String) : List String :=
  (jsLineSplit (stripBOM text).data []).filter (fun l => !(strTrim l).isEmpty)

/-- Trim applied to an accumulated cell buffer. -/
def cellTrim (cell : List Char) : String :=
  strTrim (String.mk cell)

/-- Character-by-character loop of splitRow: a doubled quote inside quotes
emits one literal quote, a quote toggles the inQuotes flag, an unquoted comma
ends the cell, anything else is accumulated. -/
def splitRowAux : List Char → Bool → List Char → List String → List String
  | [], _, cell, acc => acc ++ [cellTrim cell]
  | '"' :: '"' :: rest, true, cell, acc => splitRowAux rest true (cell ++ ['"']) acc
  | '"' :: rest, inQuotes, cell, acc => splitRowAux rest (!inQuotes) cell acc
  | ',' :: rest, false, cell, acc => splitRowAux rest false [] (acc ++ [cellTrim cell])
  | c :: rest, inQuotes, cell, acc => splitRowAux rest inQuotes (cell ++ [c]) acc

/-- splitRow from parseCSV: quote-aware tokenizer for one physical line. -/
def splitRow (row : String) : List String :=
  splitRowAux row.data false [] []

/-- Keyword list for accountName. -/
def kwAccountName : List String :=
  ["accountname", "membername", "customername", "name", "client", "fullname", "member", "subscriber"]

/-- Keyword list for accountNumber. -/
def kwAccountNumber : List String :=
  ["accountnumber", "accountno", "accnum", "id", "memberid", "acc#", "account#", "member#", "ref"]

/-- Keyword list for nextDueDate. -/
def kwNextDueDate : List String :=
  ["nextduedate", "duedate", "nextdue", "billingdate", "expiry", "due"]

/-- Keyword list for nextDueAmount. -/
def kwNextDueAmount : List String :=
  ["nextdueamount", "dueamount", "amountdue", "balance", "totaldue", "payable"]

/-- Keyword list for bps. -/
def kwBps : List String :=
  ["bps", "brochuresales", "sales", "salesvolume", "volume", "commission"]

/-- Keyword list for overdueAmount. -/
def kwOverdueAmount : List String :=
  ["overdueamount", "overdue", "pastdue", "arrears", "delinquent", "latefee"]

/-- Object.values(keywords).flat() in source insertion order. -/
def allKeywords : List String :=
  kwAccountName ++ kwAccountNumber ++ kwNextDueDate ++ kwNextDueAmount ++ kwBps ++ kwOverdueAmount

/-- Score of one normalized candidate row: one point per keyword (from the
combined flat list) having a substring match in some cell. -/
def scoreRow (cells : List String) : Nat :=
  allKeywords.foldl (fun s k => if cells.any (fun c => strContains c (normKw k)) then s + 1 else s) 0

/-- Score of line i of the input: splitRow(allLines[i]).map(normalize) scored. -/
def lineScore (allLines : List String) (i : Nat) : Nat :=
  scoreRow ((splitRow (allLines.getD i "")).map normCell)

/-- One iteration of the header-scan loop: replace the running best on a
strictly greater score. -/
def headerScanStep (allLines : List String) (st : Nat × Int) (i : Nat) : Nat × Int :=
  if st.2 < (lineScore allLines i : Int) then (i, (lineScore allLines i : Int)) else st

/-- Header locator: scan the first min(length, 10) rows starting from
headerRowIndex = 0 and maxScore = -1, keeping the first row of maximal score. -/
def headerScan (allLines : List String) : Nat :=
  ((List.range (min allLines.length 10)).foldl (headerScanStep allLines) (0, -1)).1

/-- Predicate for the exact-match pass of findIndex: some keyword of the list
equals this (already normalized) header cell. -/
def exactPred (kList : List String) (h : String) : Bool :=
  kList.any (fun k => h == normKw k)

/-- Predicate for the substring pass of findIndex: this header cell contains
some normalized keyword. -/
def subPred (kList : List String) (h : String) : Bool :=
  kList.any (fun k => strContains h (normKw k))

/-- First index satisfying p, as JavaScript Array.findIndex computes it
(before the -1 encoding). -/
def findIdxAux (p : String → Bool) : List String → Option Nat
  | [] => none
  | h :: t => if p h then some 0 else (findIdxAux p t).map (· + 1)

/-- JavaScript Array.findIndex: index of the first match, -1 when none. -/
def jsFindIndex (p : String → Bool) (l : List String) : Int :=
  match findIdxAux p l with
  | some i => (i : Int)
  | none => -1

/-- findIndex helper of parseCSV: exact pass first, then substring pass. -/
def findIndexFn (kList : List String) (headers : List String) : Int :=
  let exact := jsFindIndex (exactPred kList) headers
  if exact ≠ -1 then exact else jsFindIndex (subPred kList) headers

/-- Column indices for the six semantic fields. -/
structure FieldIndices where
  accountName : Int
  accountNumber : Int
  nextDueDate : Int
  nextDueAmount : Int
  bps : Int
  overdueAmount : Int
deriving DecidableEq, Repr

/-- The indices object of parseCSV: keyword lookup with positional fallbacks
0 and 1 for accountName and accountNumber. -/
def mkIndices (headers : List String) : FieldIndices where
  accountName := if findIndexFn kwAccountName headers ≠ -1 then findIndexFn kwAccountName headers else 0
  accountNumber := if findIndexFn kwAccountNumber headers ≠ -1 then findIndexFn kwAccountNumber headers else 1
  nextDueDate := findIndexFn kwNextDueDate headers
  nextDueAmount := findIndexFn kwNextDueAmount headers
  bps := findIndexFn kwBps headers
  overdueAmount := findIndexFn kwOverdueAmount headers

/-- One member record, the unit of parse output. -/
structure Member where
  accountName : String
  accountNumber : String
  nextDueDate : String
  nextDueAmount : String
  bps : String
  overdueAmount : String
deriving DecidableEq, Repr

/-- Default Member used only as the List.getD fallback in theorem statements. -/
def defaultMember : Member :=
  ⟨"", "", "", "", "", ""⟩

/-- getVal of the record builder:
(idx >= 0 && values[idx] !== undefined) ? values[idx] : ''. -/
def getVal (values : List String) (idx : Int) : String :=
  if 0 ≤ idx ∧ idx.toNat < values.length then values.getD idx.toNat "" else ""

/-- JavaScript x || d for string operands: the empty string is falsy. -/
def orDefault (v d : String) : String :=
  if v = "" then d else v

/-- Record built from one tokenized data row and the column indices. -/
def mkMember (values : List String) (idxs : FieldIndices) : Member where
  accountName := orDefault (getVal values idxs.accountName) "N/A"
  accountNumber := orDefault (getVal values idxs.accountNumber) "N/A"
  nextDueDate := orDefault (getVal values idxs.nextDueDate) "N/A"
  nextDueAmount := orDefault (getVal values idxs.nextDueAmount) "0.00"
  bps := orDefault (getVal values idxs.bps) "0.00"
  overdueAmount := orDefault (getVal values idxs.overdueAmount) "0.00"

/-- Sheet update date: firstRow[0] || 'N/A' where firstRow = splitRow(allLines[0]). -/
def sheetDateOf (allLines : List String) : String :=
  orDefault ((splitRow (allLines.getD 0 "")).getD 0 "") "N/A"

/-- Normalized header cells of the chosen header row. -/
def headersOf (allLines : List String) : List String :=
  (splitRow (allLines.getD (headerScan allLines) "")).map normCell

/-- Records built from every line strictly after the chosen header row. -/
def membersOf (allLines : List String) : List Member :=
  (allLines.drop (headerScan allLines + 1)).map
    (fun line => mkMember (splitRow line) (mkIndices (headersOf allLines)))

/-- Result of parseCSV. -/
structure ParseResult where
  members : List Member
  sheetUpdateDate : String
deriving DecidableEq, Repr

/-- parseCSV: BOM strip, non-empty line split, early return on no lines, then
metadata date, header scan, column mapping and record building. -/
def parseCSV (text : String) : ParseResult :=
  let allLines := nonEmptyLines text
  if allLines.length < 1 then ⟨[], "N/A"⟩
  else ⟨membersOf allLines, sheetDateOf allLines⟩

/-- The cleanStr of formatDate: dateStr.replace(/[^0-9]/g, ''). -/
def cleanDigits (dateStr : String) : List Char :=
  dateStr.data.filter Char.isDigit

/-- formatDate: empty, literal N/A or all-whitespace input returns N/A; if the
digits of the input form exactly 8 characters they are rendered as MM/DD/YYYY;
anything else is returned unchanged. -/
def formatDate (dateStr : String) : String :=
  if dateStr = "" ∨ dateStr = "N/A" ∨ strTrim dateStr = "" then "N/A"
  else if (cleanDigits dateStr).length = 8 ∧ (cleanDigits dateStr).all Char.isDigit then
    String.mk (((cleanDigits dateStr).drop 4).take 2) ++ "/" ++
      String.mk (((cleanDigits dateStr).drop 6).take 2) ++ "/" ++
      String.mk ((cleanDigits dateStr).take 4)
  else dateStr

/-- Strip applied before parseFloat in formatPeso: amount.replace(/[^0-9.-]+/g, ''). -/
def stripCurrency (s : String) : String :=
  String.mk (s.data.filter (fun c => c.isDigit || c == '.' || c == '-'))

/-- True when a string over the stripped alphabet starts with a decimal
literal: a digit, or a dot followed by a digit. -/
def decimalLeads : List Char → Bool
  | [] => false
  | c :: rest =>
    if c.isDigit then true
    else if c == '.' then
      match rest with
      | d :: _ => d.isDigit
      | [] => false
    else false

/-- NaN test of JavaScript parseFloat restricted to strings produced by
stripCurrency (alphabet digits, dot, minus): parseFloat yields NaN exactly
when no decimal literal starts the string after an optional minus sign. -/
def parseFloatNaN (s : String) : Bool :=
  match s.data with
  | '-' :: rest => !decimalLeads rest
  | cs => !decimalLeads cs

/-- Longest digit run at the front of a character list, with the remainder. -/
def takeDigits : List Char → List Char × List Char
  | [] => ([], [])
  | c :: rest =>
    if c.isDigit then
      let p := takeDigits rest
      (c :: p.1, p.2)
    else ([], c :: rest)

/-- Integer and fractional digit runs of the decimal literal front parsed by
parseFloat: digits, then optionally a dot and more digits. -/
def parseIntFrac (t : List Char) : List Char × List Char :=
  let p := takeDigits t
  match p.2 with
  | '.' :: rest => (p.1, (takeDigits rest).1)
  | _ => (p.1, [])

/-- Sign and digit runs of the decimal literal front of a stripped string. -/
def parseDecParts (cs : List Char) : Bool × List Char × List Char :=
  match cs with
  | '-' :: rest => (true, parseIntFrac rest)
  | _ => (false, parseIntFrac cs)

/-- Numeric value of a big-endian digit list. -/
def digitsToNat (ds : List Char) : Nat :=
  ds.foldl (fun n c => n * 10 + (c.toNat - 48)) 0

/-- Digit character for a value below ten. -/
def digitChar (n : Nat) : Char :=
  Char.ofNat (48 + n)

/-- Insert a comma after every third character of a reversed digit list,
giving en-PH thousands grouping once reversed back. -/
def group3Rev : List Char → List Char
  | a :: b :: c :: d :: rest => a :: b :: c :: ',' :: group3Rev (d :: rest)
  | l => l

/-- Rendering of the parsed decimal value with grouping and exactly two
fraction digits, modelling Intl.NumberFormat en-PH with minimum and maximum
fraction digits 2 (half-away-from-zero rounding on the exact decimal value). -/
def formatMoney (neg : Bool) (ip fp : List Char) : String :=
  let den : Nat := 10 ^ fp.length
  let num : Nat := digitsToNat (ip ++ fp)
  let centsNum := num * 100
  let cents := centsNum / den + (if den ≤ 2 * (centsNum % den) then 1 else 0)
  let intChars := Nat.toDigits 10 (cents / 100)
  (if neg then "-" else "") ++ String.mk (group3Rev intChars.reverse).reverse ++ "." ++
    String.mk [digitChar (cents % 100 / 10), digitChar (cents % 100 % 10)]

/-- formatPeso on string input: strip to [0-9.-], return the zero rendering
when parseFloat would yield NaN, otherwise the peso sign and the grouped
two-decimal rendering of the parsed value. -/
def formatPeso (amount : String) : String :=
  let stripped := stripCurrency amount
  if parseFloatNaN stripped then "₱0.00"
  else
    let p := parseDecParts stripped.data
    "₱" ++ formatMoney p.1 p.2.1 p.2.2

/-- Following the spec's words on the record builder: the value of one field
is the cell at the mapped column index when the index is nonnegative, the row
has a cell there and that cell is non-empty; otherwise the field's default. -/
def specFieldVal (row : List String) (idx : Int) (dflt : String) : String :=
  if 0 ≤ idx ∧ idx.toNat < row.length ∧ row.getD idx.toNat "" ≠ "" then
    row.getD idx.toNat ""
  else dflt

/-- Following the spec's words: the record a data row should produce, with
defaults N/A for name, number and date and 0.00 for the monetary fields. -/
def specMember (row : List String) (idxs : FieldIndices) : Member where
  accountName := specFieldVal row idxs.accountName "N/A"
  accountNumber := specFieldVal row idxs.accountNumber "N/A"
  nextDueDate := specFieldVal row idxs.nextDueDate "N/A"
  nextDueAmount := specFieldVal row idxs.nextDueAmount "0.00"
  bps := specFieldVal row idxs.bps "0.00"
  overdueAmount := specFieldVal row idxs.overdueAmount "0.00"

/-- The predicate p holds at index i of l and at no earlier index. -/
def firstAt (p : String → Bool) (l : List String) (i : Nat) : Prop :=
  i < l.length ∧ p (l.getD i "") = true ∧ ∀ j, j < i → p (l.getD j "") = false

/-- The predicate p holds at no index of l. -/
def noMatch (p : String → Bool) (l : List String) : Prop :=
  ∀ j, j < l.length → p (l.getD j "") = false

/-- Following the spec's words on the column mapper: the mapped value is the
first header cell with an exact normalized keyword match; failing that, the
first cell with a substring match; failing that, the field's fixed default. -/
def columnSpec (kList headers : List String) (dflt v : Int) : Prop :=
  (∃ i, firstAt (exactPred kList) headers i ∧ v = (i : Int)) ∨
  (noMatch (exactPred kList) headers ∧ ∃ i, firstAt (subPred kList) headers i ∧ v = (i : Int)) ∨
  (noMatch (exactPred kList) headers ∧ noMatch (subPred kList) headers ∧ v = dflt)

theorem parseCSV_of_ne (text : String) (h : nonEmptyLines text ≠ []) :
    parseCSV text = ⟨membersOf (nonEmptyLines text), sheetDateOf (nonEmptyLines text)⟩ := by
  have hl : ¬(nonEmptyLines text).length < 1 := by
    have : 0 < (nonEmptyLines text).length := List.length_pos.mpr h
    omega
  simp [parseCSV, hl]

theorem foldl_count (q : String → Bool) :
    ∀ (l : List String) (n : Nat),
      l.foldl (fun s k => if q k then s + 1 else s) n = n + (l.filter q).length := by
  intro l
  induction l with
  | nil => intro n; simp
  | cons a t ih =>
    intro n
    by_cases hq : q a <;> simp [hq, ih] <;> omega

theorem scoreRow_eq_filter (cells : List String) :
    scoreRow cells =
      (allKeywords.filter (fun k => cells.any (fun c => strContains c (normKw k)))).length := by
  unfold scoreRow
  rw [foldl_count (fun k => cells.any (fun c => strContains c (normKw k))) allKeywords 0]
  simp

theorem headerScanStep_argmax (L : List String) :
    ∀ n : Nat, 1 ≤ n →
      ∃ b s, (List.range n).foldl (headerScanStep L) ((0, -1) : Nat × Int) = (b, s) ∧
        b < n ∧ s = (lineScore L b : Int) ∧
        (∀ j, j < n → lineScore L j ≤ lineScore L b) ∧
        (∀ j, j < b → lineScore L j < lineScore L b) := by
  intro n
  induction n with
  | zero => intro hcon; omega
  | succ m ih =>
    intro _
    by_cases hm : 1 ≤ m
    · obtain ⟨b, s, heq, hb, hs, hmax, hfirst⟩ := ih hm
      rw [List.range_succ, List.foldl_append, heq]
      simp only [List.foldl_cons, List.foldl_nil]
      unfold headerScanStep
      by_cases hlt : s < (lineScore L m : Int)
      · have hblt : lineScore L b < lineScore L m := by
          rw [hs] at hlt; exact_mod_cast hlt
        refine ⟨m, (lineScore L m : Int), by simp [hlt], Nat.lt_succ_self m, rfl, ?_, ?_⟩
        · intro j hj
          rcases Nat.lt_succ_iff_lt_or_eq.mp hj with hj1 | hj1
          · have := hmax j hj1; omega
          · subst hj1; exact le_refl _
        · intro j hj
          have := hmax j hj
          omega
      · have hge : lineScore L m ≤ lineScore L b := by
          rw [hs] at hlt; exact_mod_cast not_lt.mp hlt
        refine ⟨b, s, by simp [hlt], Nat.lt_succ_of_lt hb, hs, ?_, hfirst⟩
        intro j hj
        rcases Nat.lt_succ_iff_lt_or_eq.mp hj with hj1 | hj1
        · exact hmax j hj1
        · subst hj1; exact hge
    · have hm0 : m = 0 := by omega
      subst hm0
      have hneg : (-1 : Int) < (lineScore L 0 : Int) := by
        have : (0 : Int) ≤ (lineScore L 0 : Int) := Int.natCast_nonneg _
        omega
      refine ⟨0, (lineScore L 0 : Int), ?_, Nat.lt_succ_self 0, rfl, ?_, ?_⟩
      · simp [List.range_succ, headerScanStep, hneg]
      · intro j hj
        have : j = 0 := by omega
        subst this; exact le_refl _
      · intro j hj; omega

theorem findIdxAux_some (p : String → Bool) :
    ∀ (l : List String) (i : Nat), findIdxAux p l = some i → firstAt p l i := by
  intro l
  induction l with
  | nil => intro i h; simp [findIdxAux] at h
  | cons a t ih =>
    intro i h
    unfold findIdxAux at h
    by_cases hp : p a
    · rw [if_pos hp] at h
      have h0 : i = 0 := by
        have := Option.some.inj h; omega
      subst h0
      exact ⟨by simp, by simpa using hp, by omega⟩
    · rw [if_neg hp] at h
      cases ht : findIdxAux p t with
      | none => rw [ht] at h; simp at h
      | some i0 =>
        rw [ht] at h
        simp at h
        have h0 : i = i0 + 1 := by omega
        subst h0
        obtain ⟨h1, h2, h3⟩ := ih i0 ht
        refine ⟨by simpa using Nat.succ_lt_succ h1, by simpa using h2, ?_⟩
        intro j hj
        cases j with
        | zero => simpa using hp
        | succ j0 => simpa using h3 j0 (by omega)

theorem findIdxAux_none (p : String → Bool) :
    ∀ l : List String, findIdxAux p l = none → noMatch p l := by
  intro l
  induction l with
  | nil => intro _ j hj; simp at hj
  | cons a t ih =>
    intro h j hj
    unfold findIdxAux at h
    by_cases hp : p a
    · rw [if_pos hp] at h; simp at h
    · rw [if_neg hp] at h
      cases ht : findIdxAux p t with
      | some i0 => rw [ht] at h; simp at h
      | none =>
        cases j with
        | zero => simpa using hp
        | succ j0 => simpa using ih ht j0 (by simpa using hj)

theorem findIndexFn_columnSpec (kList headers : List String) (dflt : Int) :
    columnSpec kList headers dflt
      (if findIndexFn kList headers ≠ -1 then findIndexFn kList headers else dflt) := by
  unfold columnSpec findIndexFn jsFindIndex
  cases hex : findIdxAux (exactPred kList) headers with
  | some i =>
    have hne : ((i : Int)) ≠ -1 := by omega
    left
    exact ⟨i, findIdxAux_some _ _ _ hex, by simp [hne]⟩
  | none =>
    have hnone := findIdxAux_none _ _ hex
    cases hsub : findIdxAux (subPred kList) headers with
    | some i =>
      have hne : ((i : Int)) ≠ -1 := by omega
      right; left
      exact ⟨hnone, i, findIdxAux_some _ _ _ hsub, by simp [hne]⟩
    | none =>
      right; right
      exact ⟨hnone, findIdxAux_none _ _ hsub, by simp⟩

theorem keep_if_ne_neg_one (v : Int) : (if v ≠ -1 then v else -1) = v := by
  by_cases h : v = -1 <;> simp [h]

theorem orDefault_getVal (row : List String) (i : Int) (d : String) :
    orDefault (getVal row i) d = specFieldVal row i d := by
  unfold orDefault getVal specFieldVal
  by_cases h1 : 0 ≤ i ∧ i.toNat < row.length
  · rw [if_pos h1]
    by_cases h2 : row.getD i.toNat "" = ""
    · rw [if_pos h2, if_neg (by tauto)]
    · rw [if_neg h2, if_pos ⟨h1.1, h1.2, h2⟩]
  · rw [if_neg h1, if_pos rfl, if_neg (by tauto)]

theorem mkMember_eq_specMember (row : List String) (idxs : FieldIndices) :
    mkMember row idxs = specMember row idxs := by
  unfold mkMember specMember
  simp only [orDefault_getVal]

theorem orDefault_ne (v d : String) (hd : d ≠ "") : orDefault v d ≠ "" := by
  unfold orDefault
  by_cases h : v = ""
  · simpa [h] using hd
  · simpa [h] using h

theorem getD_map_lt {α β : Type} (f : α → β) (d : β) (d0 : α) :
    ∀ (l : List α) (j : Nat), j < l.length → (l.map f).getD j d = f (l.getD j d0) := by
  intro l
  induction l with
  | nil => intro j hj; simp at hj
  | cons a t ih =>
    intro j hj
    cases j with
    | zero => simp
    | succ j0 => simpa using ih j0 (by simpa using hj)

theorem getD_drop_add {α : Type} (d : α) :
    ∀ (n : Nat) (l : List α) (j : Nat), (l.drop n).getD j d = l.getD (n + j) d := by
  intro n
  induction n with
  | zero => intro l j; simp
  | succ m ih =>
    intro l j
    cases l with
    | nil => simp
    | cons a t => simpa [Nat.succ_add] using ih t j

theorem filter_all_self (p : Char → Bool) (l : List Char) : (l.filter p).all p = true := by
  induction l with
  | nil => rfl
  | cons a t ih => by_cases hp : p a <;> simp [hp, ih]

/-- C1: on the three-line sample input the header locator selects row index 1,
the metadata date is the verbatim first cell "2024-05-01 Export", and the
single record carries the four cells with defaults 0.00 for bps and
overdueAmount. -/
theorem c1_sample_parse :
    headerScan (nonEmptyLines "2024-05-01 Export\nMember Name,Account No,Due Date,Due Amount\nJane Doe,1001,20240615,150.00") = 1 ∧
    parseCSV "2024-05-01 Export\nMember Name,Account No,Due Date,Due Amount\nJane Doe,1001,20240615,150.00" =
      ⟨[⟨"Jane Doe", "1001", "20240615", "150.00", "0.00", "0.00"⟩], "2024-05-01 Export"⟩ := by
  constructor
  · decide
  · decide

/-- C2: parseCSV is a total function on text: it returns a ParseResult for
every input, in particular for the empty string, a binary-garbage string and
a single-character string. -/
theorem c2_parse_total :
    (∀ text : String, ∃ ms d, parseCSV text = ⟨ms, d⟩) ∧
    parseCSV "" = ⟨[], "N/A"⟩ ∧
    parseCSV "\u0000\u0001" = ⟨[], "\u0000\u0001"⟩ ∧
    parseCSV "a" = ⟨[], "a"⟩ := by
  refine ⟨fun text => ⟨(parseCSV text).members, (parseCSV text).sheetUpdateDate, rfl⟩, ?_, ?_, ?_⟩
  · decide
  · decide
  · decide

/-- C3: the tokenizer honors quoted commas and doubled-quote escapes on the
two sample rows. -/
theorem c3_tokenizer_quotes :
    splitRow "Name,\"Doe, John\",123" = ["Name", "Doe, John", "123"] ∧
    (splitRow "A,\"She said \"\"hi\"\"\",B").getD 1 "" = "She said \"hi\"" := by
  constructor
  · decide
  · decide

/-- C4: for any input with at least one non-empty line, the header row index
lies in the window of the first min(10, line count) rows, its score is maximal
over the window, every earlier row scores strictly less (earliest-index tie
break from the strict comparison), and the score of a row is the number of
keywords of the combined list with a normalized substring match in some
normalized cell. -/
theorem c4_header_locator (text : String) (h : nonEmptyLines text ≠ []) :
    headerScan (nonEmptyLines text) < min (nonEmptyLines text).length 10 ∧
    (∀ j, j < min (nonEmptyLines text).length 10 →
      lineScore (nonEmptyLines text) j ≤ lineScore (nonEmptyLines text) (headerScan (nonEmptyLines text))) ∧
    (∀ j, j < headerScan (nonEmptyLines text) →
      lineScore (nonEmptyLines text) j < lineScore (nonEmptyLines text) (headerScan (nonEmptyLines text))) ∧
    (∀ j, lineScore (nonEmptyLines text) j =
      (allKeywords.filter (fun k =>
        ((splitRow ((nonEmptyLines text).getD j "")).map normCell).any
          (fun c => strContains c (normKw k)))).length) := by
  have hn : 1 ≤ min (nonEmptyLines text).length 10 := by
    have : 0 < (nonEmptyLines text).length := List.length_pos.mpr h
    omega
  obtain ⟨b, s, heq, hb, hs, hmax, hfirst⟩ := headerScanStep_argmax (nonEmptyLines text) _ hn
  have hscan : headerScan (nonEmptyLines text) = b := by
    unfold headerScan
    rw [heq]
  rw [hscan]
  exact ⟨hb, hmax, hfirst, fun j => scoreRow_eq_filter _⟩

theorem c4_header_locator_witness :
    headerScan (nonEmptyLines "a") < min (nonEmptyLines "a").length 10 :=
  (c4_header_locator "a" (by decide)).1

/-- C5: on any header row the column mapper realizes, for each of the six
fields, the exact-match-first, then substring-match, then default policy of
the spec, with positional defaults 0 and 1 for accountName and accountNumber
and -1 for the other four fields. -/
theorem c5_column_mapper (rawHeaders : List String) :
    columnSpec kwAccountName (rawHeaders.map normCell) 0 ((mkIndices (rawHeaders.map normCell)).accountName) ∧
    columnSpec kwAccountNumber (rawHeaders.map normCell) 1 ((mkIndices (rawHeaders.map normCell)).accountNumber) ∧
    columnSpec kwNextDueDate (rawHeaders.map normCell) (-1) ((mkIndices (rawHeaders.map normCell)).nextDueDate) ∧
    columnSpec kwNextDueAmount (rawHeaders.map normCell) (-1) ((mkIndices (rawHeaders.map normCell)).nextDueAmount) ∧
    columnSpec kwBps (rawHeaders.map normCell) (-1) ((mkIndices (rawHeaders.map normCell)).bps) ∧
    columnSpec kwOverdueAmount (rawHeaders.map normCell) (-1) ((mkIndices (rawHeaders.map normCell)).overdueAmount) := by
  refine ⟨?_, ?_, ?_, ?_, ?_, ?_⟩
  · exact findIndexFn_columnSpec kwAccountName (rawHeaders.map normCell) 0
  · exact findIndexFn_columnSpec kwAccountNumber (rawHeaders.map normCell) 1
  · have := findIndexFn_columnSpec kwNextDueDate (rawHeaders.map normCell) (-1)
    rwa [keep_if_ne_neg_one] at this
  · have := findIndexFn_columnSpec kwNextDueAmount (rawHeaders.map normCell) (-1)
    rwa [keep_if_ne_neg_one] at this
  · have := findIndexFn_columnSpec kwBps (rawHeaders.map normCell) (-1)
    rwa [keep_if_ne_neg_one] at this
  · have := findIndexFn_columnSpec kwOverdueAmount (rawHeaders.map normCell) (-1)
    rwa [keep_if_ne_neg_one] at this

theorem c5_column_mapper_witness :
    columnSpec kwAccountName (["Member Name"].map normCell) 0
      ((mkIndices (["Member Name"].map normCell)).accountName) :=
  (c5_column_mapper ["Member Name"]).1

/-- C6: whenever the input has a non-empty line, the output has exactly one
record per line strictly after the header row, in input order, and each record
equals the spec's record for the corresponding tokenized row: the cell at the
mapped index when present and non-empty, the field's default otherwise. -/
theorem c6_record_builder (text : String) (h : nonEmptyLines text ≠ []) :
    (parseCSV text).members.length =
      (nonEmptyLines text).length - (headerScan (nonEmptyLines text) + 1) ∧
    ∀ j, j < (parseCSV text).members.length →
      (parseCSV text).members.getD j defaultMember =
        specMember (splitRow ((nonEmptyLines text).getD (headerScan (nonEmptyLines text) + 1 + j) ""))
          (mkIndices (headersOf (nonEmptyLines text))) := by
  rw [parseCSV_of_ne text h]
  constructor
  · simp [membersOf]
  · intro j hj
    simp only [membersOf, List.length_map] at hj ⊢
    rw [getD_map_lt _ _ "" _ j hj, mkMember_eq_specMember, getD_drop_add]

theorem c6_record_builder_witness :
    (parseCSV "a\nb").members.length =
      (nonEmptyLines "a\nb").length - (headerScan (nonEmptyLines "a\nb") + 1) :=
  (c6_record_builder "a\nb" (by decide)).1

/-- C7: the metadata date is the verbatim (trimmed-cell) first cell of the
first non-empty line, independent of the header choice, N/A when that cell is
empty, and an input with no non-empty lines yields zero records and N/A. -/
theorem c7_metadata_date (text : String) :
    (nonEmptyLines text = [] → parseCSV text = ⟨[], "N/A"⟩) ∧
    (∀ l ls, nonEmptyLines text = l :: ls →
      (((splitRow l).getD 0 "" ≠ "" →
        (parseCSV text).sheetUpdateDate = (splitRow l).getD 0 "") ∧
       ((splitRow l).getD 0 "" = "" →
        (parseCSV text).sheetUpdateDate = "N/A"))) := by
  constructor
  · intro he
    simp [parseCSV, he]
  · intro l ls hcons
    have hne : nonEmptyLines text ≠ [] := by rw [hcons]; simp
    rw [parseCSV_of_ne text hne]
    constructor
    · intro hc
      simp only [sheetDateOf, hcons, List.getD_cons_zero]
      unfold orDefault
      rw [if_neg hc]
    · intro hc
      simp only [sheetDateOf, hcons, List.getD_cons_zero]
      unfold orDefault
      rw [if_pos hc]

theorem c7_metadata_date_witness :
    (parseCSV "x\ny").sheetUpdateDate = (splitRow "x").getD 0 "" :=
  ((c7_metadata_date "x\ny").2 "x" ["y"] (by decide)).1 (by decide)

/-- C8: formatDate returns N/A on empty, all-whitespace or literal N/A input;
otherwise when the digits of the input number exactly 8 it renders them as
MM/DD/YYYY; any other input is returned unchanged; with the four concrete
cases of the spec. -/
theorem c8_formatDate_contract :
    (∀ s : String, (s = "" ∨ strTrim s = "" ∨ s = "N/A") → formatDate s = "N/A") ∧
    (∀ s : String, ¬(s = "" ∨ strTrim s = "" ∨ s = "N/A") →
      (cleanDigits s).length = 8 →
      formatDate s =
        String.mk (((cleanDigits s).drop 4).take 2) ++ "/" ++
          String.mk (((cleanDigits s).drop 6).take 2) ++ "/" ++
          String.mk ((cleanDigits s).take 4)) ∧
    (∀ s : String, ¬(s = "" ∨ strTrim s = "" ∨ s = "N/A") →
      (cleanDigits s).length ≠ 8 → formatDate s = s) ∧
    formatDate "20240615" = "06/15/2024" ∧ formatDate "N/A" = "N/A" ∧
    formatDate "" = "N/A" ∧ formatDate "June 2024" = "June 2024" := by
  refine ⟨?_, ?_, ?_, by decide, by decide, by decide, by decide⟩
  · intro s hs
    unfold formatDate
    rw [if_pos (by tauto)]
  · intro s hs h8
    unfold formatDate
    rw [if_neg (by tauto), if_pos ⟨h8, filter_all_self Char.isDigit s.data⟩]
  · intro s hs h8
    unfold formatDate
    rw [if_neg (by tauto), if_neg (by intro hcon; exact h8 hcon.1)]

theorem c8_formatDate_contract_witness : formatDate "" = "N/A" :=
  c8_formatDate_contract.1 "" (Or.inl rfl)

/-- C9: when the stripped input cannot be parsed as a number (JavaScript
parseFloat would give NaN), formatPeso returns the zero rendering with the
peso sign and exactly two fraction digits. -/
theorem c9_formatPeso_nan (s : String) (h : parseFloatNaN (stripCurrency s) = true) :
    formatPeso s = "₱0.00" := by
  unfold formatPeso
  simp [h]

theorem c9_formatPeso_nan_witness : formatPeso "abc" = "₱0.00" :=
  c9_formatPeso_nan "abc" (by decide)

/-- C10: every record of every parse has all six fields non-empty, because
empty or absent cells resolve through the falsy-or-default to the non-empty
defaults N/A and 0.00. -/
theorem c10_fields_nonempty (text : String) (m : Member)
    (hm : m ∈ (parseCSV text).members) :
    m.accountName ≠ "" ∧ m.accountNumber ≠ "" ∧ m.nextDueDate ≠ "" ∧
    m.nextDueAmount ≠ "" ∧ m.bps ≠ "" ∧ m.overdueAmount ≠ "" := by
  by_cases he : nonEmptyLines text = []
  · simp [parseCSV, he] at hm
  · rw [parseCSV_of_ne text he] at hm
    simp only [membersOf, List.mem_map] at hm
    obtain ⟨line, _, rfl⟩ := hm
    unfold mkMember
    refine ⟨?_, ?_, ?_, ?_, ?_, ?_⟩ <;> apply orDefault_ne <;> decide

theorem c10_fields_nonempty_witness :
    Member.accountName ⟨"b", "N/A", "N/A", "0.00", "0.00", "0.00"⟩ ≠ "" :=
  (c10_fields_nonempty "a\nb" ⟨"b", "N/A", "N/A", "0.00", "0.00", "0.00"⟩ (by decide)).1

end LookupVibe
